import Mathlib

/-!
Verification of the road-graph module of eene-nav-bandit-sim
(`util/road_graph.py`), a directed weighted road network stored as a
two-level associative structure.

Shallow embedding conventions:
* Python `dict`s become association lists (`List (Nat × α)`); `dictLookup`
  is `d[k]` returning `Option`, `dictInsert` is `d[k] = v` (overwrite in
  place, append when absent) — the semantics of a Python dict assignment.
* Vertex identifiers (opaque hashables in the source) are `Nat`; numeric
  edge attributes are `Int`.
* Python exceptions become `Except PyError`; a raising operation returns
  `.error`, carrying no updated state, which renders the source behaviour
  that an exception propagates before any mutation happens.
* Python object identity matters for two claims ("the very same edge
  object", "the Edge object's identity is preserved"), so `Edge` carries
  an inert identity tag `eid` modelling the object's address; no operation
  of the module ever changes or depends on it.
* A dynamic attribute that may be absent (`e.weight`, `e.time`, set after
  construction in the source) is an `Option Int` field; `hasattr` is
  `Option.isSome`.
* The back-reference `VertexOutgoingEdges.road_graph` is a parent-graph
  handle (`Nat`); where the source dereferences it to reach the parent's
  `_edge_weight_fun`, the embedding passes the parent graph explicitly.
-/

/-- Python exception classes raised by the module. -/
inductive PyError where
  | keyError
  | valueError
  | attributeError
deriving DecidableEq

/-- Road graph edge (attribute container class). The source constructor
`Edge.__init__(self, length)` sets only `length`; `time` and `weight` are
dynamic attributes that may be set later, hence `Option` fields. `eid`
models Python object identity (see module comment). -/
structure Edge where
  eid : Nat
  length : Int
  time : Option Int := none
  weight : Option Int := none
deriving DecidableEq

/-- Embedding of `Edge(length)`: a fresh edge with only `length` set. -/
def Edge.init (eid : Nat) (length : Int) : Edge :=
  { eid := eid, length := length, time := none, weight := none }

/-- Python `d[k]` as an `Option` (first entry whose key matches). -/
def dictLookup {α : Type} : List (Nat × α) → Nat → Option α
  | [], _ => none
  | (k', v) :: rest, k => if k' = k then some v else dictLookup rest k

/-- Python `d[k] = v`: overwrite the existing entry in place, or append a
new entry when the key is absent. -/
def dictInsert {α : Type} : List (Nat × α) → Nat → α → List (Nat × α)
  | [], k, v => [(k, v)]
  | (k', v') :: rest, k, v =>
    if k' = k then (k, v) :: rest else (k', v') :: dictInsert rest k v

/-- Dict-like container of outgoing edges from a specific vertex
(`VertexOutgoingEdges`). `roadGraph` is the handle of the parent graph
stored by the constructor; `edges` is the `self.edges` dict mapping a
destination-vertex id to its `Edge`. -/
structure VertexOutgoingEdges where
  roadGraph : Nat
  edges : List (Nat × Edge)
deriving DecidableEq

/-- Embedding of `VertexOutgoingEdges(road_graph)`: empty edge dict,
back-reference to the parent graph. -/
def VertexOutgoingEdges.init (roadGraph : Nat) : VertexOutgoingEdges :=
  { roadGraph := roadGraph, edges := [] }

/-- Embedding of `VertexOutgoingEdges.__setitem__(key, val)`:

    if self.edges[key] is None:
        self.edges[key] = Edge()
    self.edges[key].weight = val

`self.edges[key]` raises `KeyError` when `key` is absent, before anything
is written. Values stored in `edges` are `Edge` objects (the module's data
model), never `None`, so the `is None` branch is dead code in the
embedding (it could not run anyway: `Edge()` lacks the required `length`
argument). On a present key the stored edge's `weight` attribute is
assigned in place: same object, all other attributes untouched. -/
def VertexOutgoingEdges.setItem (voe : VertexOutgoingEdges) (key : Nat)
    (val : Int) : Except PyError VertexOutgoingEdges :=
  match dictLookup voe.edges key with
  | none => .error .keyError
  | some e =>
    .ok { voe with edges := dictInsert voe.edges key { e with weight := some val } }

/-- Single-argument edge-weight functions a `RoadGraph` can hold. The two
named modes are the closures built by `set_edge_weight_function`; `custom`
is a caller-supplied callable (which may itself raise). -/
inductive EdgeWeightFun where
  | lengthMode
  | timeMode
  | custom (f : Edge → Except PyError Int)

/-- Evaluation of the stored weight function on an edge.
`lengthMode` is `lambda e: e.weight if hasattr(e, 'weight') else e.length`;
`timeMode` is `lambda e: e.weight if hasattr(e, 'weight') else e.time`,
where reading an absent `time` attribute raises `AttributeError`. -/
def applyWeightFun : EdgeWeightFun → Edge → Except PyError Int
  | .lengthMode, e =>
    match e.weight with
    | some w => .ok w
    | none => .ok e.length
  | .timeMode, e =>
    match e.weight with
    | some w => .ok w
    | none =>
      match e.time with
      | some t => .ok t
      | none => .error .attributeError
  | .custom f, e => f e

/-- Embedding of `VertexOutgoingEdges.__getitem__(key)`:

    e = self.edges[key]
    return self.road_graph._edge_weight_fun(e)

`parent` is the graph reached through the `road_graph` back-reference,
passed explicitly (see module comment). -/
def VertexOutgoingEdges.getItem (voe : VertexOutgoingEdges)
    (parentWeightFun : EdgeWeightFun) (key : Nat) : Except PyError Int :=
  match dictLookup voe.edges key with
  | none => .error .keyError
  | some e => applyWeightFun parentWeightFun e

/-- Embedding of `VertexOutgoingEdges.get_edge(key)`:
`return self.edges[key]` — the raw stored edge, `KeyError` when absent. -/
def VertexOutgoingEdges.get_edge (voe : VertexOutgoingEdges) (key : Nat) :
    Except PyError Edge :=
  match dictLookup voe.edges key with
  | none => .error .keyError
  | some e => .ok e

/-- Embedding of `VertexOutgoingEdges.set_edge(key, value)`:
`self.edges[key] = value` — unconditional dict assignment. -/
def VertexOutgoingEdges.set_edge (voe : VertexOutgoingEdges) (key : Nat)
    (value : Edge) : VertexOutgoingEdges :=
  { voe with edges := dictInsert voe.edges key value }

/-- Road network graph structure (`RoadGraph`). `gid` models the object's
identity, the value `VertexOutgoingEdges.roadGraph` handles refer to;
`graph` is the `self.graph` dict; `edgeWeightFun` is `self._edge_weight_fun`. -/
structure RoadGraph where
  gid : Nat
  graph : List (Nat × VertexOutgoingEdges)
  edgeWeightFun : EdgeWeightFun

/-- Embedding of `RoadGraph.__init__`: empty graph dict, then
`self.set_edge_weight_function()` which with `fun=None` installs the
length-mode closure. -/
def RoadGraph.init (gid : Nat) : RoadGraph :=
  { gid := gid, graph := [], edgeWeightFun := .lengthMode }

/-- Embedding of `RoadGraph.__setitem__`: `self.graph[key] = val`. -/
def RoadGraph.setItem (g : RoadGraph) (key : Nat)
    (val : VertexOutgoingEdges) : RoadGraph :=
  { g with graph := dictInsert g.graph key val }

/-- Embedding of `RoadGraph.__getitem__`: `self.graph[key]`, as an
`Option` (also serves `key in self`, whose truth is `Option.isSome`). -/
def RoadGraph.getItem (g : RoadGraph) (key : Nat) :
    Option VertexOutgoingEdges :=
  dictLookup g.graph key

/-- Possible Python values passed as the `fun` argument of
`set_edge_weight_function`: `None` (the default), a string, a callable,
or any other (non-`None`, non-string, non-callable) object. -/
inductive WeightFunArg where
  | noneArg
  | str (s : String)
  | callable (f : Edge → Except PyError Int)
  | otherArg

/-- Embedding of `RoadGraph.set_edge_weight_function(fun=None)`:

    if fun is None or fun == 'length':
        self._edge_weight_fun = lambda e: ... e.length
    elif fun == 'time':
        self._edge_weight_fun = lambda e: ... e.time
    elif callable(fun):
        self._edge_weight_fun = fun
    else:
        raise ValueError(...)

A string other than the two mode names is not callable, so it falls to the
`raise`; a callable is not `None` and compares unequal to both strings. -/
def RoadGraph.set_edge_weight_function (g : RoadGraph) (fn : WeightFunArg) :
    Except PyError RoadGraph :=
  match fn with
  | .noneArg => .ok { g with edgeWeightFun := .lengthMode }
  | .str s =>
    if s = "length" then .ok { g with edgeWeightFun := .lengthMode }
    else if s = "time" then .ok { g with edgeWeightFun := .timeMode }
    else .error .valueError
  | .callable f => .ok { g with edgeWeightFun := .custom f }
  | .otherArg => .error .valueError

/-- One iteration of the inner loop of `RoadGraph.reverse`, for the arc
`src → dst` carrying `e`:

    if to_edge not in reverse_graph:
        reverse_graph[to_edge] = VertexOutgoingEdges(reverse_graph)
    reverse_graph[to_edge].set_edge(from_edge, ...get_edge(to_edge))

`newGid` is the identity of the reversed graph being built, wired into
each freshly created `VertexOutgoingEdges`. -/
def reverseArcStep (newGid src : Nat) (rg : RoadGraph) (dst : Nat)
    (e : Edge) : RoadGraph :=
  let rg1 :=
    if (rg.getItem dst).isSome then rg
    else rg.setItem dst (VertexOutgoingEdges.init newGid)
  match rg1.getItem dst with
  | some voe => rg1.setItem dst (voe.set_edge src e)
  | none => rg1

/-- Embedding of `RoadGraph.reverse`: fold the two nested `for` loops over
the graph's entries, starting from a fresh `RoadGraph()` whose identity is
`newGid` (the address of the new object, chosen by the allocator). The
inner loop iterates over the destination keys of `self.graph[from_edge]`
and reads each edge back with `get_edge`; folding over the `(key, edge)`
pairs of the dict is the same traversal. -/
def RoadGraph.reverse (g : RoadGraph) (newGid : Nat) : RoadGraph :=
  g.graph.foldl
    (fun rg p => p.2.edges.foldl
      (fun rg q => reverseArcStep newGid p.1 rg q.1 q.2) rg)
    (RoadGraph.init newGid)

/-- Composite lookup: the edge stored for the arc `src → dst`, `none` when
either level misses. -/
def lookupEdge (g : RoadGraph) (src dst : Nat) : Option Edge :=
  match dictLookup g.graph src with
  | none => none
  | some voe => dictLookup voe.edges dst

/-- Well-formedness every graph built through the Python API has: the keys
of the top-level dict are distinct, and so are the destination keys inside
each `VertexOutgoingEdges` (Python dicts cannot hold duplicate keys). -/
def RoadGraph.WF (g : RoadGraph) : Prop :=
  (g.graph.map Prod.fst).Nodup ∧
    ∀ p ∈ g.graph, (p.2.edges.map Prod.fst).Nodup

/-! ### Dictionary lemmas -/

theorem dictLookup_dictInsert {α : Type} (l : List (Nat × α)) (k k' : Nat)
    (v : α) :
    dictLookup (dictInsert l k v) k' =
      if k = k' then some v else dictLookup l k' := by
  induction l with
  | nil => simp [dictInsert, dictLookup]
  | cons p rest ih =>
    obtain ⟨k₀, v₀⟩ := p
    by_cases h0 : k₀ = k
    · subst h0
      by_cases h1 : k₀ = k'
      · subst h1; simp [dictInsert, dictLookup]
      · simp [dictInsert, dictLookup, h1]
    · have h0' : ¬(k = k₀) := fun h => h0 h.symm
      by_cases h1 : k₀ = k'
      · subst h1
        simp [dictInsert, dictLookup, h0, h0']
      · simp [dictInsert, dictLookup, h0, h1, ih]

theorem dictLookup_mem {α : Type} {l : List (Nat × α)} {k : Nat} {v : α}
    (h : dictLookup l k = some v) : (k, v) ∈ l := by
  induction l with
  | nil => simp [dictLookup] at h
  | cons p rest ih =>
    obtain ⟨k₀, v₀⟩ := p
    by_cases h0 : k₀ = k
    · subst h0
      simp [dictLookup] at h
      simp [h]
    · simp [dictLookup, h0] at h
      exact List.mem_cons_of_mem _ (ih h)

theorem mem_dictLookup {α : Type} {l : List (Nat × α)} {k : Nat} {v : α}
    (hnd : (l.map Prod.fst).Nodup) (h : (k, v) ∈ l) :
    dictLookup l k = some v := by
  induction l with
  | nil => simp at h
  | cons p rest ih =>
    obtain ⟨k₀, v₀⟩ := p
    rw [List.map_cons, List.nodup_cons] at hnd
    rcases List.mem_cons.mp h with h | h
    · cases h
      simp [dictLookup]
    · have hk : k₀ ≠ k := fun he => by
        rw [he] at hnd
        exact hnd.1 (List.mem_map.mpr ⟨(k, v), h, rfl⟩)
      simp [dictLookup, hk, ih hnd.2 h]

theorem dictInsert_keys {α : Type} (l : List (Nat × α)) (k : Nat) (v : α) :
    (dictInsert l k v).map Prod.fst =
      if k ∈ l.map Prod.fst then l.map Prod.fst
      else l.map Prod.fst ++ [k] := by
  induction l with
  | nil => simp [dictInsert]
  | cons p rest ih =>
    obtain ⟨k₀, v₀⟩ := p
    have h0' : ∀ h : ¬(k₀ = k), ¬(k = k₀) := fun h he => h he.symm
    by_cases h0 : k₀ = k
    · subst h0; simp [dictInsert]
    · simp [dictInsert, h0, ih, h0' h0]
      by_cases hm : k ∈ rest.map Prod.fst <;> simp [hm, h0' h0]

theorem dictInsert_keys_nodup {α : Type} {l : List (Nat × α)} (k : Nat)
    (v : α) (hnd : (l.map Prod.fst).Nodup) :
    ((dictInsert l k v).map Prod.fst).Nodup := by
  rw [dictInsert_keys]
  by_cases hm : k ∈ l.map Prod.fst
  · simpa [hm]
  · simp [hm, List.nodup_append, hnd]

theorem dictInsert_values_mem {α : Type} {l : List (Nat × α)} {k : Nat}
    {v : α} {p : Nat × α} (h : p ∈ dictInsert l k v) :
    p = (k, v) ∨ p ∈ l := by
  induction l with
  | nil => simp [dictInsert] at h; simp [h]
  | cons q rest ih =>
    obtain ⟨k₀, v₀⟩ := q
    by_cases h0 : k₀ = k
    · subst h0
      simp [dictInsert] at h
      rcases h with h | h
      · exact Or.inl h
      · exact Or.inr (List.mem_cons_of_mem _ h)
    · simp [dictInsert, h0] at h
      rcases h with h | h
      · exact Or.inr (by simp [h])
      · rcases ih h with h | h
        · exact Or.inl h
        · exact Or.inr (List.mem_cons_of_mem _ h)

/-! ### Claims about the setters, getters and weight resolution -/

/-- Claim C3: assigning a bare weight value through
`VertexOutgoingEdges.__setitem__` for a destination with no stored entry
raises `KeyError` (the dereference `self.edges[key]` fails before any
write); in the `Except` embedding the error result carries no updated
container, so the destination-to-Edge mapping is unchanged and no new
entry is created. -/
theorem claim_C3 (voe : VertexOutgoingEdges) (d : Nat) (w : Int)
    (h : dictLookup voe.edges d = none) :
    voe.setItem d w = .error .keyError := by
  simp [VertexOutgoingEdges.setItem, h]

theorem claim_C3_witness :
    dictLookup (VertexOutgoingEdges.mk 0 [(1, Edge.init 0 5)]).edges 2 =
        none ∧
      (VertexOutgoingEdges.mk 0 [(1, Edge.init 0 5)]).setItem 2 7 =
        .error .keyError :=
  ⟨rfl, claim_C3 _ 2 7 rfl⟩

/-- Claim C9: a successful weight-style set on a destination holding an
existing Edge mutates only the `weight` attribute of that Edge: the
object's identity (`eid`) and its `length` and `time` attributes are
preserved, every other destination entry is unchanged, and the
back-reference to the parent graph is unchanged. -/
theorem claim_C9 (voe voe' : VertexOutgoingEdges) (d : Nat) (w : Int)
    (e : Edge) (he : dictLookup voe.edges d = some e)
    (hs : voe.setItem d w = .ok voe') :
    voe'.roadGraph = voe.roadGraph ∧
      (∃ e', dictLookup voe'.edges d = some e' ∧ e'.eid = e.eid ∧
        e'.length = e.length ∧ e'.time = e.time ∧ e'.weight = some w) ∧
      ∀ d', d' ≠ d → dictLookup voe'.edges d' = dictLookup voe.edges d' := by
  have hv : voe' =
      { voe with edges :=
          dictInsert voe.edges d { e with weight := some w } } := by
    simpa [VertexOutgoingEdges.setItem, he] using hs.symm
  subst hv
  refine ⟨rfl, ⟨{ e with weight := some w }, ?_, rfl, rfl, rfl, rfl⟩, ?_⟩
  · simp [dictLookup_dictInsert]
  · intro d' hd'
    simp [dictLookup_dictInsert, Ne.symm hd']

theorem claim_C9_witness :
    (VertexOutgoingEdges.mk 3 [(1, Edge.mk 10 5 (some 9) (some 7))]).roadGraph
        = (VertexOutgoingEdges.mk 3
            [(1, Edge.mk 10 5 (some 9) none)]).roadGraph ∧
      (∃ e', dictLookup (VertexOutgoingEdges.mk 3
            [(1, Edge.mk 10 5 (some 9) (some 7))]).edges 1 = some e' ∧
        e'.eid = (Edge.mk 10 5 (some 9) none).eid ∧
        e'.length = (Edge.mk 10 5 (some 9) none).length ∧
        e'.time = (Edge.mk 10 5 (some 9) none).time ∧
        e'.weight = some 7) ∧
      dictLookup (VertexOutgoingEdges.mk 3
          [(1, Edge.mk 10 5 (some 9) (some 7))]).edges 2 =
        dictLookup (VertexOutgoingEdges.mk 3
          [(1, Edge.mk 10 5 (some 9) none)]).edges 2 := by
  obtain ⟨h1, h2, h3⟩ :=
    claim_C9 (VertexOutgoingEdges.mk 3 [(1, Edge.mk 10 5 (some 9) none)])
      (VertexOutgoingEdges.mk 3 [(1, Edge.mk 10 5 (some 9) (some 7))])
      1 7 (Edge.mk 10 5 (some 9) none) rfl rfl
  exact ⟨h1, h2, h3 2 (by decide)⟩

/-- Claim C7: `set_edge` stores the given edge unconditionally,
overwriting any prior entry for the destination, and `get_edge`
immediately afterwards returns exactly that stored edge (the raw `Edge`,
bypassing weight resolution); entries at other destinations are
untouched. -/
theorem claim_C7 (voe : VertexOutgoingEdges) (d : Nat) (e : Edge) :
    (voe.set_edge d e).get_edge d = .ok e ∧
      ∀ d', d' ≠ d → (voe.set_edge d e).get_edge d' = voe.get_edge d' := by
  constructor
  · simp [VertexOutgoingEdges.set_edge, VertexOutgoingEdges.get_edge,
      dictLookup_dictInsert]
  · intro d' hd'
    simp [VertexOutgoingEdges.set_edge, VertexOutgoingEdges.get_edge,
      dictLookup_dictInsert, Ne.symm hd']

theorem claim_C7_witness :
    ((VertexOutgoingEdges.mk 0 [(1, Edge.init 4 8)]).set_edge 1
        (Edge.init 5 2)).get_edge 1 = .ok (Edge.init 5 2) ∧
      ((VertexOutgoingEdges.mk 0 [(1, Edge.init 4 8)]).set_edge 1
          (Edge.init 5 2)).get_edge 2 =
        (VertexOutgoingEdges.mk 0 [(1, Edge.init 4 8)]).get_edge 2 :=
  ⟨(claim_C7 _ 1 (Edge.init 5 2)).1,
    (claim_C7 _ 1 (Edge.init 5 2)).2 2 (by decide)⟩

/-- Claim C5: the weighted read `__getitem__` raises `KeyError` for a
destination that was never inserted (no default or zero value), and for a
present destination returns the parent graph's currently configured
weight-resolution function applied to the stored Edge — a computed weight
value, not the Edge itself. -/
theorem claim_C5 (parent : RoadGraph) (voe : VertexOutgoingEdges)
    (d : Nat) :
    (dictLookup voe.edges d = none →
        voe.getItem parent.edgeWeightFun d = .error .keyError) ∧
      ∀ e, dictLookup voe.edges d = some e →
        voe.getItem parent.edgeWeightFun d =
          applyWeightFun parent.edgeWeightFun e := by
  constructor
  · intro h; simp [VertexOutgoingEdges.getItem, h]
  · intro e h; simp [VertexOutgoingEdges.getItem, h]

theorem claim_C5_witness :
    (VertexOutgoingEdges.mk 0 []).getItem (RoadGraph.init 0).edgeWeightFun 4
        = .error .keyError ∧
      (VertexOutgoingEdges.mk 0 [(4, Edge.init 9 5)]).getItem
          (RoadGraph.init 0).edgeWeightFun 4 =
        applyWeightFun (RoadGraph.init 0).edgeWeightFun (Edge.init 9 5) :=
  ⟨(claim_C5 (RoadGraph.init 0) _ 4).1 rfl,
    (claim_C5 (RoadGraph.init 0) _ 4).2 (Edge.init 9 5) rfl⟩

/-- Claim C4: `set_edge_weight_function` given a string other than
`"length"`/`"time"` (strings are not callable), or any other non-callable
value, raises `ValueError`; in the `Except` embedding the error carries no
updated graph, so the previously configured resolution function remains
installed and continues to serve subsequent weight reads. -/
theorem claim_C4 (g : RoadGraph) (s : String) (h1 : s ≠ "length")
    (h2 : s ≠ "time") :
    g.set_edge_weight_function (.str s) = .error .valueError ∧
      g.set_edge_weight_function .otherArg = .error .valueError := by
  refine ⟨?_, rfl⟩
  simp [RoadGraph.set_edge_weight_function, h1, h2]

theorem claim_C4_witness :
    (RoadGraph.init 0).set_edge_weight_function (.str "distance") =
        .error .valueError ∧
      (RoadGraph.init 0).set_edge_weight_function .otherArg =
        .error .valueError :=
  claim_C4 (RoadGraph.init 0) "distance" (by decide) (by decide)

/-- Claim C10: calling `set_edge_weight_function` with no argument
(default `fun=None`) does not raise: it installs the default length-mode
resolution function — edge `weight` if present, else edge `length` — which
is exactly the function the `RoadGraph` constructor installs. -/
theorem claim_C10 (g : RoadGraph) (m : Nat) :
    g.set_edge_weight_function .noneArg =
        .ok { g with edgeWeightFun := .lengthMode } ∧
      (RoadGraph.init m).edgeWeightFun = .lengthMode ∧
      ∀ e, applyWeightFun .lengthMode e = .ok (e.weight.getD e.length) := by
  refine ⟨rfl, rfl, fun e => ?_⟩
  cases h : e.weight <;> simp [applyWeightFun, h]

/-- Claim C2: through a graph configured with mode `"length"` (`gl`) or
`"time"` (`gt`) by `set_edge_weight_function`, the weighted read of a
stored Edge returns the edge's `weight` attribute whenever it is set,
under either mode; for an Edge without `weight`, mode `"length"` resolves
to the `length` attribute and mode `"time"` to the `time` attribute. -/
theorem claim_C2 (g gl gt : RoadGraph) (voe : VertexOutgoingEdges)
    (d : Nat) (e : Edge)
    (hl : g.set_edge_weight_function (.str "length") = .ok gl)
    (ht : g.set_edge_weight_function (.str "time") = .ok gt)
    (he : dictLookup voe.edges d = some e) :
    (∀ w, e.weight = some w →
        voe.getItem gl.edgeWeightFun d = .ok w ∧
        voe.getItem gt.edgeWeightFun d = .ok w) ∧
      (e.weight = none → voe.getItem gl.edgeWeightFun d = .ok e.length) ∧
      (e.weight = none → ∀ t, e.time = some t →
        voe.getItem gt.edgeWeightFun d = .ok t) := by
  have hgl : gl.edgeWeightFun = .lengthMode := by
    simp [RoadGraph.set_edge_weight_function] at hl
    rw [← hl]
  have hgt : gt.edgeWeightFun = .timeMode := by
    simp [RoadGraph.set_edge_weight_function] at ht
    rw [← ht]
  rw [hgl, hgt]
  refine ⟨fun w hw => ?_, fun hw => ?_, fun hw t htt => ?_⟩
  · constructor <;> simp [VertexOutgoingEdges.getItem, he, applyWeightFun, hw]
  · simp [VertexOutgoingEdges.getItem, he, applyWeightFun, hw]
  · simp [VertexOutgoingEdges.getItem, he, applyWeightFun, hw, htt]

theorem claim_C2_witness :
    (VertexOutgoingEdges.mk 0 [(2, Edge.mk 0 5 (some 3) (some 7))]).getItem
        (RoadGraph.mk 0 [] .lengthMode).edgeWeightFun 2 = .ok 7 ∧
      (VertexOutgoingEdges.mk 0 [(2, Edge.mk 0 5 (some 3) (some 7))]).getItem
        (RoadGraph.mk 0 [] .timeMode).edgeWeightFun 2 = .ok 7 ∧
      (VertexOutgoingEdges.mk 0 [(2, Edge.mk 1 5 (some 3) none)]).getItem
        (RoadGraph.mk 0 [] .lengthMode).edgeWeightFun 2 = .ok 5 ∧
      (VertexOutgoingEdges.mk 0 [(2, Edge.mk 1 5 (some 3) none)]).getItem
        (RoadGraph.mk 0 [] .timeMode).edgeWeightFun 2 = .ok 3 := by
  obtain ⟨h1, -, -⟩ :=
    claim_C2 (RoadGraph.init 0) (RoadGraph.mk 0 [] .lengthMode)
      (RoadGraph.mk 0 [] .timeMode)
      (VertexOutgoingEdges.mk 0 [(2, Edge.mk 0 5 (some 3) (some 7))])
      2 (Edge.mk 0 5 (some 3) (some 7)) rfl rfl rfl
  obtain ⟨-, h2, h3⟩ :=
    claim_C2 (RoadGraph.init 0) (RoadGraph.mk 0 [] .lengthMode)
      (RoadGraph.mk 0 [] .timeMode)
      (VertexOutgoingEdges.mk 0 [(2, Edge.mk 1 5 (some 3) none)])
      2 (Edge.mk 1 5 (some 3) none) rfl rfl rfl
  exact ⟨(h1 7 rfl).1, (h1 7 rfl).2, h2 rfl, h3 rfl 3 rfl⟩

/-! ### Analysis of the reversal algorithm -/

theorem lookupEdge_setItem (rg : RoadGraph) (k : Nat)
    (voe : VertexOutgoingEdges) (s d : Nat) :
    lookupEdge (rg.setItem k voe) s d =
      if k = s then dictLookup voe.edges d else lookupEdge rg s d := by
  by_cases h : k = s <;>
    simp [lookupEdge, RoadGraph.setItem, dictLookup_dictInsert, h]

theorem reverseArcStep_lookup (n s : Nat) (rg : RoadGraph) (d : Nat)
    (e : Edge) (d' s' : Nat) :
    lookupEdge (reverseArcStep n s rg d e) d' s' =
      if d' = d ∧ s' = s then some e else lookupEdge rg d' s' := by
  cases hv : rg.getItem d with
  | some voe =>
    have h1 : reverseArcStep n s rg d e = rg.setItem d (voe.set_edge s e) := by
      simp [reverseArcStep, hv]
    rw [h1, lookupEdge_setItem]
    by_cases hd : d' = d
    · subst hd
      have hrg : lookupEdge rg d' s' = dictLookup voe.edges s' := by
        simp [lookupEdge, show dictLookup rg.graph d' = some voe from hv]
      by_cases hs : s' = s
      · subst hs
        simp [VertexOutgoingEdges.set_edge, dictLookup_dictInsert]
      · have hs' : ¬(s = s') := fun h => hs h.symm
        simp [VertexOutgoingEdges.set_edge, dictLookup_dictInsert, hs, hs',
          hrg]
    · have hd' : ¬(d = d') := fun h => hd h.symm
      simp [hd, hd']
  | none =>
    have hv' : dictLookup rg.graph d = none := hv
    have h1 : reverseArcStep n s rg d e =
        (rg.setItem d (VertexOutgoingEdges.init n)).setItem d
          ((VertexOutgoingEdges.init n).set_edge s e) := by
      simp [reverseArcStep, RoadGraph.getItem, RoadGraph.setItem, hv',
        dictLookup_dictInsert]
    rw [h1, lookupEdge_setItem, lookupEdge_setItem]
    by_cases hd : d' = d
    · subst hd
      have hrg : lookupEdge rg d' s' = none := by
        simp [lookupEdge, hv']
      by_cases hs : s' = s
      · subst hs
        simp [VertexOutgoingEdges.set_edge, VertexOutgoingEdges.init,
          dictLookup_dictInsert, dictLookup]
      · have hs' : ¬(s = s') := fun h => hs h.symm
        simp [VertexOutgoingEdges.set_edge, VertexOutgoingEdges.init,
          dictLookup_dictInsert, dictLookup, hs, hs', hrg]
    · have hd' : ¬(d = d') := fun h => hd h.symm
      simp [hd, hd']

theorem reverseArcStep_edgeWeightFun (n s : Nat) (rg : RoadGraph)
    (d : Nat) (e : Edge) :
    (reverseArcStep n s rg d e).edgeWeightFun = rg.edgeWeightFun := by
  cases hv : rg.getItem d with
  | some voe => simp [reverseArcStep, hv, RoadGraph.setItem]
  | none =>
    have hv' : dictLookup rg.graph d = none := hv
    simp [reverseArcStep, RoadGraph.getItem, RoadGraph.setItem, hv',
      dictLookup_dictInsert]

theorem setItem_WF (rg : RoadGraph) (k : Nat) (voe : VertexOutgoingEdges)
    (h : rg.WF) (hv : (voe.edges.map Prod.fst).Nodup) :
    (rg.setItem k voe).WF := by
  constructor
  · exact dictInsert_keys_nodup k voe h.1
  · intro p hp
    rcases dictInsert_values_mem hp with hp | hp
    · rw [hp]; exact hv
    · exact h.2 p hp

theorem reverseArcStep_WF (n s : Nat) (rg : RoadGraph) (d : Nat) (e : Edge)
    (h : rg.WF) : (reverseArcStep n s rg d e).WF := by
  cases hv : rg.getItem d with
  | some voe =>
    have h1 : reverseArcStep n s rg d e = rg.setItem d (voe.set_edge s e) := by
      simp [reverseArcStep, hv]
    rw [h1]
    refine setItem_WF _ _ _ h ?_
    have hmem : (d, voe) ∈ rg.graph := dictLookup_mem hv
    exact dictInsert_keys_nodup s e (h.2 (d, voe) hmem)
  | none =>
    have hv' : dictLookup rg.graph d = none := hv
    have h1 : reverseArcStep n s rg d e =
        (rg.setItem d (VertexOutgoingEdges.init n)).setItem d
          ((VertexOutgoingEdges.init n).set_edge s e) := by
      simp [reverseArcStep, RoadGraph.getItem, RoadGraph.setItem, hv',
        dictLookup_dictInsert]
    rw [h1]
    refine setItem_WF _ _ _
      (setItem_WF _ _ _ h (by simp [VertexOutgoingEdges.init])) ?_
    simp [VertexOutgoingEdges.set_edge, VertexOutgoingEdges.init, dictInsert]

/-- Flattening of a graph dict into its list of
(source, destination, edge) triples, in iteration order. -/
def arcsOf : List (Nat × VertexOutgoingEdges) → List (Nat × Nat × Edge)
  | [] => []
  | (s₀, voe) :: rest =>
    voe.edges.map (fun q => (s₀, q.1, q.2)) ++ arcsOf rest

/-- Last triple of the list with the given source and destination (the
reversal loop writes arcs in order, so the last write wins). -/
def findTripleLast : List (Nat × Nat × Edge) → Nat → Nat → Option Edge
  | [], _, _ => none
  | (s₀, d₀, e₀) :: T, s, d =>
    match findTripleLast T s d with
    | some e => some e
    | none => if s = s₀ ∧ d = d₀ then some e₀ else none

/-- Folding the body of `reverse` over an explicit list of arcs. -/
def foldSteps (n : Nat) (T : List (Nat × Nat × Edge)) (rg : RoadGraph) :
    RoadGraph :=
  T.foldl (fun rg t => reverseArcStep n t.1 rg t.2.1 t.2.2) rg

theorem foldSteps_lookup (n : Nat) (T : List (Nat × Nat × Edge))
    (rg : RoadGraph) (d s : Nat) :
    lookupEdge (foldSteps n T rg) d s =
      match findTripleLast T s d with
      | some e => some e
      | none => lookupEdge rg d s := by
  induction T generalizing rg with
  | nil => simp [foldSteps, findTripleLast]
  | cons t T ih =>
    obtain ⟨s₀, d₀, e₀⟩ := t
    rw [show foldSteps n ((s₀, d₀, e₀) :: T) rg =
        foldSteps n T (reverseArcStep n s₀ rg d₀ e₀) from rfl]
    rw [ih]
    cases hf : findTripleLast T s d with
    | some e => simp [findTripleLast, hf]
    | none =>
      simp only [findTripleLast, hf, reverseArcStep_lookup]
      by_cases h1 : d = d₀ <;> by_cases h2 : s = s₀ <;> simp [h1, h2]

theorem foldSteps_edgeWeightFun (n : Nat) (T : List (Nat × Nat × Edge))
    (rg : RoadGraph) :
    (foldSteps n T rg).edgeWeightFun = rg.edgeWeightFun := by
  induction T generalizing rg with
  | nil => rfl
  | cons t T ih =>
    rw [show foldSteps n (t :: T) rg =
        foldSteps n T (reverseArcStep n t.1 rg t.2.1 t.2.2) from rfl]
    rw [ih, reverseArcStep_edgeWeightFun]

theorem foldSteps_WF (n : Nat) (T : List (Nat × Nat × Edge))
    (rg : RoadGraph) (h : rg.WF) : (foldSteps n T rg).WF := by
  induction T generalizing rg with
  | nil => exact h
  | cons t T ih =>
    rw [show foldSteps n (t :: T) rg =
        foldSteps n T (reverseArcStep n t.1 rg t.2.1 t.2.2) from rfl]
    exact ih _ (reverseArcStep_WF n t.1 rg t.2.1 t.2.2 h)

theorem reverse_eq_foldSteps (g : RoadGraph) (n : Nat) :
    g.reverse n = foldSteps n (arcsOf g.graph) (RoadGraph.init n) := by
  suffices h : ∀ (gl : List (Nat × VertexOutgoingEdges)) (rg : RoadGraph),
      gl.foldl (fun rg p => p.2.edges.foldl
        (fun rg q => reverseArcStep n p.1 rg q.1 q.2) rg) rg =
        foldSteps n (arcsOf gl) rg from h g.graph _
  intro gl
  induction gl with
  | nil => intro rg; rfl
  | cons p rest ih =>
    intro rg
    obtain ⟨s₀, voe⟩ := p
    rw [List.foldl_cons, ih]
    rw [show arcsOf ((s₀, voe) :: rest) =
        voe.edges.map (fun q => (s₀, q.1, q.2)) ++ arcsOf rest from rfl]
    rw [show foldSteps n (voe.edges.map (fun q => (s₀, q.1, q.2)) ++
        arcsOf rest) rg = foldSteps n (arcsOf rest)
          (foldSteps n (voe.edges.map (fun q => (s₀, q.1, q.2))) rg) from by
      simp [foldSteps, List.foldl_append]]
    congr 1
    simp [foldSteps, List.foldl_map]

theorem findTripleLast_cons (s₀ d₀ : Nat) (e₀ : Edge)
    (T : List (Nat × Nat × Edge)) (s d : Nat) :
    findTripleLast ((s₀, d₀, e₀) :: T) s d =
      match findTripleLast T s d with
      | some e => some e
      | none => if s = s₀ ∧ d = d₀ then some e₀ else none := rfl

theorem arcsOf_cons (s₀ : Nat) (voe : VertexOutgoingEdges)
    (rest : List (Nat × VertexOutgoingEdges)) :
    arcsOf ((s₀, voe) :: rest) =
      voe.edges.map (fun q => (s₀, q.1, q.2)) ++ arcsOf rest := rfl

theorem lookupEdge_eq_bind (g : RoadGraph) (s d : Nat) :
    lookupEdge g s d =
      (dictLookup g.graph s).bind (fun voe => dictLookup voe.edges d) := by
  cases h : dictLookup g.graph s <;> simp [lookupEdge, h]

theorem findTripleLast_append (A B : List (Nat × Nat × Edge)) (s d : Nat) :
    findTripleLast (A ++ B) s d =
      match findTripleLast B s d with
      | some e => some e
      | none => findTripleLast A s d := by
  induction A with
  | nil =>
    rw [List.nil_append]
    cases h : findTripleLast B s d <;> simp [h, findTripleLast]
  | cons t T ih =>
    obtain ⟨s₀, d₀, e₀⟩ := t
    rw [List.cons_append, findTripleLast_cons, ih, findTripleLast_cons]
    cases findTripleLast B s d <;> cases findTripleLast T s d <;> simp

theorem findTripleLast_map_ne (edges : List (Nat × Edge)) (s₀ s d : Nat)
    (h : s ≠ s₀) :
    findTripleLast (edges.map (fun q => (s₀, q.1, q.2))) s d = none := by
  induction edges with
  | nil => rfl
  | cons q rest ih =>
    obtain ⟨d₀, e₀⟩ := q
    rw [List.map_cons, findTripleLast_cons, ih]
    simp [h]

theorem findTripleLast_map_not_mem (edges : List (Nat × Edge)) (s₀ d : Nat)
    (h : d ∉ edges.map Prod.fst) :
    findTripleLast (edges.map (fun q => (s₀, q.1, q.2))) s₀ d = none := by
  induction edges with
  | nil => rfl
  | cons q rest ih =>
    obtain ⟨d₀, e₀⟩ := q
    rw [List.map_cons] at h
    simp only [List.mem_cons] at h
    push_neg at h
    rw [List.map_cons, findTripleLast_cons, ih h.2]
    simp [h.1]

theorem findTripleLast_map_self (edges : List (Nat × Edge)) (s₀ d : Nat)
    (hnd : (edges.map Prod.fst).Nodup) :
    findTripleLast (edges.map (fun q => (s₀, q.1, q.2))) s₀ d =
      dictLookup edges d := by
  induction edges with
  | nil => rfl
  | cons q rest ih =>
    obtain ⟨d₀, e₀⟩ := q
    rw [List.map_cons, List.nodup_cons] at hnd
    rw [List.map_cons, findTripleLast_cons]
    by_cases hd : d = d₀
    · subst hd
      rw [findTripleLast_map_not_mem rest s₀ d hnd.1]
      simp [dictLookup]
    · have hd' : ¬(d₀ = d) := fun hh => hd hh.symm
      rw [ih hnd.2]
      cases h : dictLookup rest d <;> simp [dictLookup, hd, hd', h]

theorem findTripleLast_arcsOf_not_mem
    (gl : List (Nat × VertexOutgoingEdges)) (s d : Nat)
    (h : s ∉ gl.map Prod.fst) : findTripleLast (arcsOf gl) s d = none := by
  induction gl with
  | nil => rfl
  | cons p rest ih =>
    obtain ⟨s₀, voe⟩ := p
    rw [List.map_cons] at h
    simp only [List.mem_cons] at h
    push_neg at h
    rw [arcsOf_cons, findTripleLast_append, ih h.2,
      findTripleLast_map_ne voe.edges s₀ s d h.1]

theorem findTripleLast_arcsOf (gl : List (Nat × VertexOutgoingEdges))
    (h1 : (gl.map Prod.fst).Nodup)
    (h2 : ∀ p ∈ gl, (p.2.edges.map Prod.fst).Nodup) (s d : Nat) :
    findTripleLast (arcsOf gl) s d =
      (dictLookup gl s).bind (fun voe => dictLookup voe.edges d) := by
  induction gl with
  | nil => rfl
  | cons p rest ih =>
    obtain ⟨s₀, voe⟩ := p
    rw [List.map_cons, List.nodup_cons] at h1
    rw [arcsOf_cons, findTripleLast_append]
    by_cases hs : s = s₀
    · subst hs
      rw [findTripleLast_arcsOf_not_mem rest s d h1.1,
        findTripleLast_map_self voe.edges s d (h2 (s, voe) (by simp))]
      simp [dictLookup]
    · have hs' : ¬(s₀ = s) := fun hh => hs hh.symm
      rw [findTripleLast_map_ne voe.edges s₀ s d hs,
        ih h1.2 (fun p hp => h2 p (List.mem_cons_of_mem _ hp))]
      cases h : dictLookup rest s with
      | none => simp [dictLookup, hs', h]
      | some voe₂ =>
        cases h₂ : dictLookup voe₂.edges d <;>
          simp [dictLookup, hs', h, h₂]

theorem arcsOf_not_mem (gl : List (Nat × VertexOutgoingEdges)) (s d : Nat)
    (e : Edge) (h : s ∉ gl.map Prod.fst) : (s, d, e) ∉ arcsOf gl := by
  induction gl with
  | nil => simp [arcsOf]
  | cons p rest ih =>
    obtain ⟨s₀, voe⟩ := p
    rw [List.map_cons] at h
    simp only [List.mem_cons] at h
    push_neg at h
    intro hm
    rw [arcsOf_cons] at hm
    rcases List.mem_append.mp hm with hm | hm
    · rcases List.mem_map.mp hm with ⟨q, hq, heq⟩
      simp only [Prod.mk.injEq] at heq
      exact h.1 heq.1.symm
    · exact ih h.2 hm

theorem mem_arcsOf_iff (gl : List (Nat × VertexOutgoingEdges))
    (h1 : (gl.map Prod.fst).Nodup)
    (h2 : ∀ p ∈ gl, (p.2.edges.map Prod.fst).Nodup) (s d : Nat) (e : Edge) :
    (s, d, e) ∈ arcsOf gl ↔
      (dictLookup gl s).bind (fun voe => dictLookup voe.edges d) = some e := by
  induction gl with
  | nil => simp [arcsOf, dictLookup]
  | cons p rest ih =>
    obtain ⟨s₀, voe⟩ := p
    rw [List.map_cons, List.nodup_cons] at h1
    rw [arcsOf_cons, List.mem_append]
    by_cases hs : s = s₀
    · subst hs
      have hrest : (s, d, e) ∉ arcsOf rest := arcsOf_not_mem rest s d e h1.1
      have hinner : (voe.edges.map Prod.fst).Nodup := h2 (s, voe) (by simp)
      have hdl : dictLookup ((s, voe) :: rest) s = some voe := by
        simp [dictLookup]
      rw [hdl, Option.some_bind]
      constructor
      · rintro (hm | hm)
        · rcases List.mem_map.mp hm with ⟨q, hq, heq⟩
          obtain ⟨q1, q2⟩ := q
          simp only [Prod.mk.injEq] at heq
          obtain ⟨-, hq1, hq2⟩ := heq
          subst hq1; subst hq2
          exact mem_dictLookup hinner hq
        · exact absurd hm hrest
      · intro hl
        exact Or.inl (List.mem_map.mpr ⟨(d, e), dictLookup_mem hl, rfl⟩)
    · have hs' : ¬(s₀ = s) := fun hh => hs hh.symm
      have hdl : dictLookup ((s₀, voe) :: rest) s = dictLookup rest s := by
        simp [dictLookup, hs']
      rw [hdl]
      rw [← ih h1.2 (fun p hp => h2 p (List.mem_cons_of_mem _ hp))]
      constructor
      · rintro (hm | hm)
        · rcases List.mem_map.mp hm with ⟨q, hq, heq⟩
          simp only [Prod.mk.injEq] at heq
          exact absurd heq.1.symm hs
        · exact hm
      · exact fun hm => Or.inr hm

theorem reverse_lookupEdge (g : RoadGraph) (n : Nat) (h : g.WF)
    (d s : Nat) : lookupEdge (g.reverse n) d s = lookupEdge g s d := by
  rw [reverse_eq_foldSteps, foldSteps_lookup,
    findTripleLast_arcsOf g.graph h.1 h.2 s d, ← lookupEdge_eq_bind]
  cases hl : lookupEdge g s d <;>
    simp [hl, lookupEdge, RoadGraph.init, dictLookup]

theorem reverse_WF (g : RoadGraph) (n : Nat) : (g.reverse n).WF := by
  rw [reverse_eq_foldSteps]
  refine foldSteps_WF n _ _ ⟨by simp [RoadGraph.init], ?_⟩
  intro p hp
  simp [RoadGraph.init] at hp

theorem reverse_edgeWeightFun (g : RoadGraph) (n : Nat) :
    (g.reverse n).edgeWeightFun = .lengthMode := by
  rw [reverse_eq_foldSteps, foldSteps_edgeWeightFun]
  rfl

/-- Claim C1: for a well-formed graph (distinct dict keys at both levels,
as Python dicts guarantee), `reverse` produces a graph whose entry at
(dest, src) is exactly the edge value (identity tag included, so the very
same edge, shared not copied) that the original stores at (src, dest), and
which has no other entries; the original graph is a pure value here, so
the call leaves its vertex and edge mappings unchanged by construction. -/
theorem claim_C1 (g : RoadGraph) (n : Nat) (h : g.WF) (s d : Nat)
    (e : Edge) :
    (s, d, e) ∈ arcsOf g.graph ↔ lookupEdge (g.reverse n) d s = some e := by
  rw [mem_arcsOf_iff g.graph h.1 h.2 s d e, ← lookupEdge_eq_bind,
    reverse_lookupEdge g n h d s]

theorem claim_C1_witness :
    (1, 2, Edge.init 100 5) ∈ arcsOf (RoadGraph.mk 0
        [(1, VertexOutgoingEdges.mk 0 [(2, Edge.init 100 5)]),
          (2, VertexOutgoingEdges.mk 0 [(3, Edge.init 101 3)])]
        EdgeWeightFun.lengthMode).graph ∧
      lookupEdge ((RoadGraph.mk 0
        [(1, VertexOutgoingEdges.mk 0 [(2, Edge.init 100 5)]),
          (2, VertexOutgoingEdges.mk 0 [(3, Edge.init 101 3)])]
        EdgeWeightFun.lengthMode).reverse 7) 2 1 = some (Edge.init 100 5) :=
  ⟨by decide,
    (claim_C1 (RoadGraph.mk 0
        [(1, VertexOutgoingEdges.mk 0 [(2, Edge.init 100 5)]),
          (2, VertexOutgoingEdges.mk 0 [(3, Edge.init 101 3)])]
        EdgeWeightFun.lengthMode) 7
      (by constructor <;> decide) 1 2 (Edge.init 100 5)).mp (by decide)⟩

/-- Claim C8: whatever weight-resolution mode or custom function the
source graph has configured, the graph returned by `reverse` carries the
standard default resolution function — edge `weight` if present, else edge
`length` — which is the function a freshly constructed `RoadGraph` has. -/
theorem claim_C8 (g : RoadGraph) (n m : Nat) :
    (g.reverse n).edgeWeightFun = (RoadGraph.init m).edgeWeightFun ∧
      ∀ e, applyWeightFun (g.reverse n).edgeWeightFun e =
        .ok (e.weight.getD e.length) := by
  have h := reverse_edgeWeightFun g n
  refine ⟨by rw [h]; rfl, fun e => ?_⟩
  rw [h]
  cases hw : e.weight <;> simp [applyWeightFun, hw]

/-- Claim C6: reversing a well-formed graph twice yields a graph whose
set of (source, destination, edge) triples is that of the original. -/
theorem claim_C6 (g : RoadGraph) (n m : Nat) (h : g.WF) (s d : Nat)
    (e : Edge) :
    (s, d, e) ∈ arcsOf ((g.reverse n).reverse m).graph ↔
      (s, d, e) ∈ arcsOf g.graph := by
  have h1 : (g.reverse n).WF := reverse_WF g n
  have h2 : ((g.reverse n).reverse m).WF := reverse_WF (g.reverse n) m
  rw [mem_arcsOf_iff _ h2.1 h2.2 s d e, ← lookupEdge_eq_bind,
    reverse_lookupEdge (g.reverse n) m h1 s d,
    reverse_lookupEdge g n h d s,
    mem_arcsOf_iff _ h.1 h.2 s d e, ← lookupEdge_eq_bind]

theorem claim_C6_witness :
    (1, 2, Edge.init 100 5) ∈ arcsOf (((RoadGraph.mk 0
        [(1, VertexOutgoingEdges.mk 0 [(2, Edge.init 100 5)]),
          (2, VertexOutgoingEdges.mk 0 [(3, Edge.init 101 3)])]
        EdgeWeightFun.lengthMode).reverse 7).reverse 8).graph :=
  (claim_C6 (RoadGraph.mk 0
      [(1, VertexOutgoingEdges.mk 0 [(2, Edge.init 100 5)]),
        (2, VertexOutgoingEdges.mk 0 [(3, Edge.init 101 3)])]
      EdgeWeightFun.lengthMode) 7 8
    (by constructor <;> decide) 1 2 (Edge.init 100 5)).mpr (by decide)
